import Mathlib

/-!
Shallow embedding, in Lean 4, of the parts of the `series-automation`
repository that the specification's claims are about:

* `calculateStringMatchScore` and the character-matching logic of
  `movie-automation/components/episode-form/utils.ts` and
  `movie-automation/components/episode-form/hooks/useCharacterMatching.ts`;
* the range-capable video byte-serving route
  `movie-automation/app/api/videos/[taskId]/route.ts`;
* the storyline assigner of the Python analysis service, whose source is
  not part of the repository snapshot and is therefore modelled from the
  specification (§4.5).

JavaScript strings are embedded as `List Char`; JavaScript numbers as `ℚ`
(every arithmetic operation performed by the embedded code is exact on
small rationals, so no floating-point rounding is modelled); JavaScript
arrays as `List`; JavaScript `null`/`undefined` results as `Option`.
-/

/- The `Rat` operations in the standard library are `@[irreducible]`, which
blocks `decide` from evaluating concrete rational arithmetic during
elaboration.  The kernel ignores reducibility annotations, so making them
semireducible locally only lets the elaborator perform the same reduction
the kernel will re-check. -/
attribute [local semireducible] Rat.add Rat.mul Rat.inv Rat.sub Rat.ofScientific

namespace SeriesAutomation

/-- Lower-casing of a single character as performed by JavaScript
`String.prototype.toLowerCase` on the character ranges that occur in this
repository's data (ASCII Latin and Cyrillic, the two alphabets used by the
application). -/
def jsToLower (c : Char) : Char :=
  if 'A' ≤ c ∧ c ≤ 'Z' then Char.ofNat (c.toNat + 32)
  else if 'А' ≤ c ∧ c ≤ 'Я' then Char.ofNat (c.toNat + 32)
  else if c = 'Ё' then 'ё'
  else c

/-- The white-space test used by JavaScript `String.prototype.trim` and by
`parseInt` when skipping leading white space (space, tab, line feed,
carriage return, vertical tab, form feed, no-break space). -/
def jsIsWhitespace (c : Char) : Bool :=
  c = ' ' || c = '\t' || c = '\n' || c = '\r' ||
  c = Char.ofNat 11 || c = Char.ofNat 12 || c = Char.ofNat 160

/-- JavaScript `String.prototype.trim`: drop white space from both ends. -/
def jsTrim (s : List Char) : List Char :=
  ((s.dropWhile jsIsWhitespace).reverse.dropWhile jsIsWhitespace).reverse

/-- `str.toLowerCase().trim()` — the normalisation both arguments of
`calculateStringMatchScore` undergo (utils.ts lines 57–58). -/
def jsNormalize (s : List Char) : List Char :=
  jsTrim (s.map jsToLower)

/-- The number of positions `i` below both lengths with `s1[i] === s2[i]`
(the loop of utils.ts lines 73–78; `List.zip` truncates at the shorter
length, exactly as the loop bound `minLen` does). -/
def countEqualPositions (s1 s2 : List Char) : Nat :=
  (s1.zip s2).countP (fun p => p.1 == p.2)

/-- `calculateStringMatchScore` from
`movie-automation/components/episode-form/utils.ts` lines 54–81.
`if (!str1 || !str2) return 0` — among strings exactly the empty string is
falsy, so the guard fires iff an argument is empty.  `s1.includes(s2)` is
contiguous-substring containment, i.e. `jsNormalize str2 <:+: jsNormalize
str1`. -/
def calculateStringMatchScore (str1 str2 : List Char) : ℚ :=
  if str1 = [] ∨ str2 = [] then 0
  else if jsNormalize str1 = jsNormalize str2 then 1
  else if jsNormalize str2 <:+: jsNormalize str1 ∨ jsNormalize str1 <:+: jsNormalize str2 then
    0.8 + 0.2 * (((min (jsNormalize str1).length (jsNormalize str2).length : Nat) : ℚ) /
                 ((max (jsNormalize str1).length (jsNormalize str2).length : Nat) : ℚ))
  else if max (jsNormalize str1).length (jsNormalize str2).length = 0 then 1
  else (countEqualPositions (jsNormalize str1) (jsNormalize str2) : ℚ) /
       ((max (jsNormalize str1).length (jsNormalize str2).length : Nat) : ℚ)

/-- The score that claim C1 describes, branch for branch, with no guard for
empty inputs: normalise, then return 1 on equality of the normalised forms,
the containment formula when one normalised string contains the other, and
the positional fraction over the longer length otherwise.  Written from the
claim's words, to be compared with `calculateStringMatchScore`, which is
written from the source. -/
def claimedScoreC1 (str1 str2 : List Char) : ℚ :=
  if jsNormalize str1 = jsNormalize str2 then 1
  else if jsNormalize str2 <:+: jsNormalize str1 ∨ jsNormalize str1 <:+: jsNormalize str2 then
    0.8 + 0.2 * (((min (jsNormalize str1).length (jsNormalize str2).length : Nat) : ℚ) /
                 ((max (jsNormalize str1).length (jsNormalize str2).length : Nat) : ℚ))
  else (countEqualPositions (jsNormalize str1) (jsNormalize str2) : ℚ) /
       ((max (jsNormalize str1).length (jsNormalize str2).length : Nat) : ℚ)

/-- A roster entry, `Character` from `movie-automation/lib/types/character.ts`
restricted to the fields the matcher reads (`id`, `name`, `aliases`). -/
structure Character where
  id : String
  name : List Char
  aliases : List (List Char)
deriving DecidableEq

/-- The `status` field of a `CharacterMatch`
(`'matched' | 'unmatched' | 'manual' | 'skipped'`). -/
inductive MatchStatus where
  | matched
  | unmatched
  | manual
  | skipped
deriving DecidableEq

/-- `CharacterMatch` from
`movie-automation/components/episode-form/types.ts` (also declared inline in
the older `EpisodeForm`): one reconciliation record per mentioned name. -/
structure CharacterMatch where
  name : List Char
  existingCharacter : Option Character
  matchScore : ℚ
  status : MatchStatus
  selectedCharacterId : Option String := none
deriving DecidableEq

/-- `totalScore` from `useCharacterMatching.ts` lines 31–42: the maximum of
the name score and the scores against each alias (the alias loop starts
from `aliasScore = 0`, which the fold reproduces; an absent/empty alias
array leaves `aliasScore = 0`). -/
def totalScore (charName : List Char) (existingChar : Character) : ℚ :=
  max (calculateStringMatchScore charName existingChar.name)
    (existingChar.aliases.foldl
      (fun acc al => max acc (calculateStringMatchScore charName al)) 0)

/-- `potentialMatches.sort((a, b) => b.score - a.score)` followed by taking
`potentialMatches[0]` (useCharacterMatching.ts lines 30–54): JavaScript's
sort is stable, so the head of the descending sort is the earliest entry of
maximal score — which is what a fold with a strict comparison keeps. -/
def bestStep (charName : List Char) (best : Character × ℚ) (c2 : Character) : Character × ℚ :=
  if totalScore charName c2 > best.2 then (c2, totalScore charName c2) else best

/-- Taking `potentialMatches[0]` after the stable descending sort: the fold
keeps the earliest maximal-score roster entry. -/
def bestMatch (charName : List Char) : List Character → Option (Character × ℚ)
  | [] => none
  | c :: rest => some (rest.foldl (bestStep charName) (c, totalScore charName c))

/-- The body of the `gptCharacters.map` in `matchCharacters`
(useCharacterMatching.ts lines 28–69): auto-match iff the best score is
`>= 0.8`, otherwise an `unmatched` record carrying the best score (or 0 for
an empty roster, which the guard in `matchCharacters` rules out). -/
def matchOne (characters : List Character) (charName : List Char) : CharacterMatch :=
  match bestMatch charName characters with
  | some (c, s) =>
      if 0.8 ≤ s then
        { name := charName, existingCharacter := some c, matchScore := s, status := .matched }
      else
        { name := charName, existingCharacter := none, matchScore := s, status := .unmatched }
  | none => { name := charName, existingCharacter := none, matchScore := 0, status := .unmatched }

/-- `matchCharacters` from `useCharacterMatching.ts` lines 20–83, as the list
of match records it computes.  When the mention list or the roster is empty
the function returns before computing any record (it only invokes the
completion callback with `[]`), so no records exist — embedded as `[]`. -/
def matchCharacters (characters : List Character) (gptCharacters : List (List Char)) :
    List CharacterMatch :=
  if gptCharacters = [] ∨ characters = [] then []
  else gptCharacters.map (matchOne characters)

/-- The effect of a `matchCharacters` call on the `characterMatches` React
state: past the guard the state is replaced wholesale by the freshly
computed records (`setCharacterMatches(matches)`, line 71); inside the guard
the state is left untouched. -/
def matchCharactersState (characters : List Character) (gptCharacters : List (List Char))
    (st : List CharacterMatch) : List CharacterMatch :=
  if gptCharacters = [] ∨ characters = [] then st
  else gptCharacters.map (matchOne characters)

/-- `handleManualMatch` (useCharacterMatching.ts lines 86–100): replace the
record at `index` with one pointing at the explicitly chosen roster entry
(`characters.find(c => c.id === characterId) || null`) and status
`manual`.  Out-of-range indices leave the list unchanged. -/
def handleManualMatch (characters : List Character) (st : List CharacterMatch)
    (index : Nat) (characterId : String) : List CharacterMatch :=
  match st[index]? with
  | none => st
  | some m =>
      st.set index
        { m with
          existingCharacter := characters.find? (fun c => c.id == characterId),
          selectedCharacterId := some characterId,
          status := .manual }

/-- `handleSkipCharacter` (useCharacterMatching.ts lines 103–114). -/
def handleSkipCharacter (st : List CharacterMatch) (index : Nat) : List CharacterMatch :=
  match st[index]? with
  | none => st
  | some m =>
      st.set index
        { m with existingCharacter := none, selectedCharacterId := none, status := .skipped }

/-- `handleResetMatch` (useCharacterMatching.ts lines 117–128). -/
def handleResetMatch (st : List CharacterMatch) (index : Nat) : List CharacterMatch :=
  match st[index]? with
  | none => st
  | some m =>
      st.set index
        { m with existingCharacter := none, selectedCharacterId := none, status := .unmatched }

/-! ### The video byte-serving route

`movie-automation/app/api/videos/[taskId]/route.ts`.  The file system is
embedded as an association list `filename ↦ size` (in directory-listing
order), a request as the optional `filename` query parameter plus the
optional raw `Range` header value, and the response by the claim-relevant
observables: HTTP status, `Content-Range` header, `Content-Length` header. -/

/-- The decimal value of a digit string (the arithmetic `parseInt` performs
on the digits it consumes). -/
def digitsVal (s : List Char) : Nat :=
  s.foldl (fun acc c => 10 * acc + (c.toNat - 48)) 0

/-- JavaScript `parseInt(s, 10)` on a non-negative input: skip leading white
space, consume the maximal run of decimal digits, `NaN` (here `none`) when
no digit is found. -/
def jsParseInt (s : List Char) : Option Nat :=
  if (s.dropWhile jsIsWhitespace).takeWhile (fun c => c.isDigit) = [] then none
  else some (digitsVal ((s.dropWhile jsIsWhitespace).takeWhile (fun c => c.isDigit)))

/-- JavaScript `String.prototype.split("-")`. -/
def splitOnDash : List Char → List (List Char)
  | [] => [[]]
  | c :: cs =>
      if c = '-' then [] :: splitOnDash cs
      else
        match splitOnDash cs with
        | [] => [[c]]
        | p :: ps => (c :: p) :: ps

/-- JavaScript `String.prototype.replace` with a plain-text pattern: replace
the first occurrence (here: delete it, since the route replaces `bytes=`
with the empty string). -/
def replaceFirst (pat : List Char) : List Char → List Char
  | [] => []
  | c :: cs =>
      if pat.isPrefixOf (c :: cs) then List.drop pat.length (c :: cs)
      else c :: replaceFirst pat cs

/-- The literal pattern `bytes=` of `range.replace(/bytes=/, "")`
(route.ts line 73). -/
def bytesPat : List Char := ['b', 'y', 't', 'e', 's', '=']

/-- Decimal rendering of a natural number, for the template string
`bytes ${start}-${end}/${videoSize}`. -/
def natChars (n : Nat) : List Char := Nat.toDigits 10 n

/-- Decimal rendering of an integer (the `end` position is `videoSize - 1`
when the header omits it, which is negative for an empty file). -/
def intChars : Int → List Char
  | Int.ofNat n => natChars n
  | Int.negSucc n => '-' :: natChars (n + 1)

/-- The `Content-Range` header value `bytes ${start}-${end}/${videoSize}`
(route.ts line 83). -/
def contentRangeValue (start : Nat) (endPos : Int) (videoSize : Nat) : List Char :=
  "bytes ".data ++ natChars start ++ ['-'] ++ intChars endPos ++ ['/'] ++ natChars videoSize

/-- The claim-relevant observables of the route's `NextResponse`. -/
structure VideoResponse where
  status : Nat
  contentRange : Option (List Char)
  contentLength : Option Int
deriving DecidableEq

/-- The `GET` handler of `movie-automation/app/api/videos/[taskId]/route.ts`
lines 29–112.  `files` is the shared video directory (name ↦ size, in
listing order); `existsSync`+`statSync` are embedded as one association
lookup.  When `parseInt` yields `NaN` for either bound, the untyped JS code
passes `NaN` to `fs.createReadStream`, which throws, and the surrounding
`try`/`catch` turns that into the 500 response of line 110 — the `none`
branches model exactly that path.  `serveVideo` is the part of the handler
from the `existsSync` check on (route.ts lines 60–107). -/
def serveVideo (files : List (List Char × Nat)) (fn : List Char)
    (rangeHeader : Option (List Char)) : VideoResponse :=
  match files.lookup fn with
  | none => { status := 404, contentRange := none, contentLength := none }
  | some videoSize =>
    match rangeHeader with
    | none =>
        { status := 200, contentRange := none, contentLength := some (videoSize : Int) }
    | some range =>
        match jsParseInt ((splitOnDash (replaceFirst bytesPat range)).getD 0 []),
            (if (splitOnDash (replaceFirst bytesPat range)).getD 1 [] = [] then
              some ((videoSize : Int) - 1)
             else (jsParseInt ((splitOnDash (replaceFirst bytesPat range)).getD 1 [])).map
              Int.ofNat) with
        | some start, some endPos =>
            { status := 206,
              contentRange := some (contentRangeValue start endPos videoSize),
              contentLength := some (endPos - (start : Int) + 1) }
        | _, _ => { status := 500, contentRange := none, contentLength := none }

/-- The full `GET` handler: the `filename` query parameter selects the file
when present; otherwise the handler falls back to the first file of the
directory listing, and 404s when the directory is empty (route.ts lines
43–57). -/
def videosGET (files : List (List Char × Nat)) (filename : Option (List Char))
    (rangeHeader : Option (List Char)) : VideoResponse :=
  match filename with
  | some fn => serveVideo files fn rangeHeader
  | none =>
      match files with
      | [] => { status := 404, contentRange := none, contentLength := none }
      | (fn, _) :: _ => serveVideo files fn rangeHeader

/-- The `end` bound a range header determines: the parsed second digit group
when present, `videoSize - 1` when omitted (route.ts line 75).  Used to
state claim C10 uniformly over both forms of the header. -/
def rangeEndValue (videoSize : Nat) (ds2 : List Char) : Int :=
  if ds2 = [] then (videoSize : Int) - 1 else (digitsVal ds2 : Int)

/-! ### The storyline assigner

Modelled from the spec: the Python analysis service's source is not part of
the repository snapshot under `src/` (only its `Dockerfile` and
`requirements.txt` are), so the Storyline Assigner of §4.5 is modelled from
the specification's words: clamp the requested count `k` to the number of
scenes `n`, then among all partitions of the ordered scene sequence into
exactly `min k n` contiguous non-empty ranges choose one maximizing the
summed per-range coherence, tie-broken toward the smallest range-size
variance.  The per-range coherence function is a parameter (`coh`): the
spec defines it through cosine similarity of embeddings, which is
irrational in general; the claims proved below hold for every coherence
function. -/

/-- Modelled from the spec: every list of positive sizes of length `k`
summing to `n` — the contiguous partitions of `n` ordered scenes into `k`
non-empty ranges, each represented by its range sizes. -/
def compositions : Nat → Nat → List (List Nat)
  | n, 0 => if n = 0 then [[]] else []
  | n, k + 1 =>
      (List.range n).flatMap fun i =>
        (compositions (n - (i + 1)) k).map fun rest => (i + 1) :: rest

/-- Modelled from the spec: cut an ordered scene list into consecutive
ranges of the given sizes. -/
def splitBySizes {α : Type} : List α → List Nat → List (List α)
  | _, [] => []
  | scenes, sz :: rest => scenes.take sz :: splitBySizes (scenes.drop sz) rest

/-- Modelled from the spec: the summed per-range coherence of a candidate
partition (§4.5's objective `Σ coherence(range)`). -/
def partitionScore {α : Type} (coh : List α → ℚ) (scenes : List α) (sizes : List Nat) : ℚ :=
  ((splitBySizes scenes sizes).map coh).sum

/-- Modelled from the spec: a fraction-free proxy for the variance of the
range sizes (`Σ (k·size − n)²` is `k²·k` times the variance), used only for
the spec's tie-break "prefer the partition whose range-size variance is
smallest". -/
def sizeVarianceKey (n : Nat) (sizes : List Nat) : Int :=
  (sizes.map fun sz => ((sizes.length : Int) * sz - n) ^ 2).sum

/-- Modelled from the spec: `a` beats `b` when it scores strictly higher, or
scores equally with strictly smaller range-size variance. -/
def betterSizes {α : Type} (coh : List α → ℚ) (scenes : List α) (n : Nat)
    (a b : List Nat) : Bool :=
  decide (partitionScore coh scenes b < partitionScore coh scenes a ∨
    (partitionScore coh scenes a = partitionScore coh scenes b ∧
      sizeVarianceKey n a < sizeVarianceKey n b))

/-- Modelled from the spec: select an optimum from a candidate list — keep
the earliest candidate that no later candidate strictly beats. -/
def pickBest {α : Type} (better : α → α → Bool) : List α → Option α
  | [] => none
  | x :: xs => some (xs.foldl (fun best y => if better y best then y else best) x)

/-- Modelled from the spec (§4.5, §4.7): the Storyline Assigner.  Clamp the
requested storyline count to the scene count, then return the
coherence-optimal contiguous partition of the ordered scene list. -/
def assignStorylines {α : Type} (coh : List α → ℚ) (scenes : List α) (k : Nat) :
    List (List α) :=
  match pickBest (betterSizes coh scenes scenes.length)
      (compositions scenes.length (min k scenes.length)) with
  | none => []
  | some sizes => splitBySizes scenes sizes

/-! ## Theorems -/

theorem countEqualPositions_comm (s1 s2 : List Char) :
    countEqualPositions s1 s2 = countEqualPositions s2 s1 := by
  induction s1 generalizing s2 with
  | nil => cases s2 <;> rfl
  | cons a t ih =>
      cases s2 with
      | nil => rfl
      | cons b t2 =>
          simp only [countEqualPositions, List.zip_cons_cons, List.countP_cons]
          have hab : (a == b) = (b == a) := by
            by_cases h : a = b
            · subst h; rfl
            · rw [beq_eq_false_iff_ne.mpr h, beq_eq_false_iff_ne.mpr (Ne.symm h)]
          rw [hab]
          have := ih t2
          simp only [countEqualPositions] at this
          rw [this]

/-- Claim C9. The match-score function is symmetric: every branch of
`calculateStringMatchScore` (empty-input guard, normalized equality,
two-sided containment, positional comparison) treats its two arguments
interchangeably, so `score(a, b) = score(b, a)` for all strings. -/
theorem C9_matchScore_symmetric (a b : List Char) :
    calculateStringMatchScore a b = calculateStringMatchScore b a := by
  unfold calculateStringMatchScore
  by_cases h1 : a = [] ∨ b = []
  · rw [if_pos h1, if_pos (Or.symm h1)]
  · rw [if_neg h1, if_neg (fun h => h1 (Or.symm h))]
    by_cases he : jsNormalize a = jsNormalize b
    · rw [if_pos he, if_pos he.symm]
    · rw [if_neg he, if_neg (Ne.symm he)]
      by_cases hinc : jsNormalize b <:+: jsNormalize a ∨ jsNormalize a <:+: jsNormalize b
      · rw [if_pos hinc, if_pos (Or.symm hinc),
          Nat.min_comm (jsNormalize a).length (jsNormalize b).length,
          Nat.max_comm (jsNormalize a).length (jsNormalize b).length]
      · rw [if_neg hinc, if_neg (fun h => hinc (Or.symm h)),
          Nat.max_comm (jsNormalize a).length (jsNormalize b).length,
          countEqualPositions_comm (jsNormalize a) (jsNormalize b)]

/-- Claim C1, counterexample. The claim omits the falsy-input guard
`if (!str1 || !str2) return 0`: on the pair of empty strings the
normalized forms are equal, so the claimed case analysis yields `1.0`,
but the function returns `0`. -/
theorem C1_counterexample :
    calculateStringMatchScore [] [] = 0 ∧ claimedScoreC1 [] [] = 1 :=
  ⟨by decide, by decide⟩

/-- Claim C1, amended. For every pair of input strings, the function first
returns `0` when either input is the (falsy) empty string; on non-empty
inputs it behaves exactly as the claim states: `1.0` on normalized
equality, `0.8 + 0.2·(min_len/max_len)` on one-sided containment of the
normalized forms, and otherwise the number of equal-character positions
divided by the longer normalized length. -/
theorem C1_guarded_score (a b : List Char) :
    calculateStringMatchScore a b = if a = [] ∨ b = [] then 0 else claimedScoreC1 a b := by
  by_cases h : a = [] ∨ b = []
  · rw [if_pos h]; unfold calculateStringMatchScore; rw [if_pos h]
  · rw [if_neg h]
    unfold calculateStringMatchScore claimedScoreC1
    rw [if_neg h]
    by_cases he : jsNormalize a = jsNormalize b
    · rw [if_pos he, if_pos he]
    · rw [if_neg he, if_neg he]
      by_cases hinc : jsNormalize b <:+: jsNormalize a ∨ jsNormalize a <:+: jsNormalize b
      · rw [if_pos hinc, if_pos hinc]
      · rw [if_neg hinc, if_neg hinc]
        have hmax : ¬ max (jsNormalize a).length (jsNormalize b).length = 0 := by
          intro h0
          rcases Nat.max_eq_zero_iff.mp h0 with ⟨ha, hb⟩
          exact he (by rw [List.length_eq_zero.mp ha, List.length_eq_zero.mp hb])
        rw [if_neg hmax]

/-- Claim C6, counterexample. The claim includes the empty string, but the
falsy-input guard makes `score("", "") = 0`, not `1.0`. -/
theorem C6_counterexample : calculateStringMatchScore [] [] ≠ 1 := by decide

/-- Claim C6, amended. The match-score function is reflexive-safe on every
non-empty string: `score(a, a) = 1.0` whenever `a ≠ ""` (for the empty
string the falsy-input guard returns `0`). -/
theorem C6_reflexive_nonempty (a : List Char) (h : a ≠ []) :
    calculateStringMatchScore a a = 1 := by
  unfold calculateStringMatchScore
  rw [if_neg (by simp [h]), if_pos rfl]

theorem C6_witness :
    (['Г'] : List Char) ≠ [] ∧ calculateStringMatchScore ['Г'] ['Г'] = 1 :=
  ⟨by decide, C6_reflexive_nonempty ['Г'] (by decide)⟩

/-- Claim C7. The positional third branch is order-sensitive: `"ab"` and
`"ba"` are distinct, of equal length, and one is a permutation of the
other, yet their match score is exactly `0`. -/
theorem C7_permuted_strings_score_zero :
    (['a', 'b'] : List Char) ≠ ['b', 'a'] ∧
    (['a', 'b'] : List Char).length = (['b', 'a'] : List Char).length ∧
    List.Perm ['a', 'b'] ['b', 'a'] ∧
    calculateStringMatchScore ['a', 'b'] ['b', 'a'] = 0 :=
  ⟨by decide, rfl, List.Perm.swap 'b' 'a' [], by decide⟩

/-- Claim C5, counterexample. With an empty roster and one mention, the
matcher's guard returns before computing any record: the result is the
empty list, not one `unmatched` record per mention. -/
theorem C5_counterexample :
    matchCharacters [] [['а']] = [] ∧ (matchCharacters [] [['а']]).length ≠ 1 :=
  ⟨by decide, by decide⟩

/-- Claim C5, amended. Matching against an empty roster is not fatal, but it
yields no match entries at all: `matchCharacters` returns before scoring
anything and the completion callback receives the empty list, so the
result contains zero entries regardless of the mention list. -/
theorem C5_empty_roster_yields_no_matches (ms : List (List Char)) :
    matchCharacters [] ms = [] := by
  simp [matchCharacters]

/-- Claim C8. Whenever the two inputs are non-empty and distinct and one
normalized form contains the other, the score lands in `[0.8, 1.0]`
(equality of the normalized forms gives `1.0`, one-sided containment gives
`0.8 + 0.2·(min_len/max_len)` with the fraction in `[0, 1]`); in
particular `score("Геральт", "Геральт из Ривии") ∈ [0.8, 1.0]`. -/
theorem C8_containment_interval :
    (∀ a b : List Char, a ≠ [] → b ≠ [] → a ≠ b →
      (jsNormalize b <:+: jsNormalize a ∨ jsNormalize a <:+: jsNormalize b) →
      0.8 ≤ calculateStringMatchScore a b ∧ calculateStringMatchScore a b ≤ 1) ∧
    (0.8 ≤ calculateStringMatchScore "Геральт".data "Геральт из Ривии".data ∧
      calculateStringMatchScore "Геральт".data "Геральт из Ривии".data ≤ 1) := by
  constructor
  · intro a b ha hb _ hinc
    unfold calculateStringMatchScore
    rw [if_neg (by simp [ha, hb])]
    by_cases he : jsNormalize a = jsNormalize b
    · rw [if_pos he]; norm_num
    · rw [if_neg he, if_pos hinc]
      have hx0 : (0 : ℚ) ≤
          ((min (jsNormalize a).length (jsNormalize b).length : Nat) : ℚ) /
          ((max (jsNormalize a).length (jsNormalize b).length : Nat) : ℚ) :=
        div_nonneg (Nat.cast_nonneg _) (Nat.cast_nonneg _)
      have hx1 : ((min (jsNormalize a).length (jsNormalize b).length : Nat) : ℚ) /
          ((max (jsNormalize a).length (jsNormalize b).length : Nat) : ℚ) ≤ 1 := by
        rcases Nat.eq_zero_or_pos (max (jsNormalize a).length (jsNormalize b).length) with hm | hm
        · rw [hm]; simp
        · have hmq : (0 : ℚ) < ((max (jsNormalize a).length (jsNormalize b).length : Nat) : ℚ) := by
            exact_mod_cast hm
          rw [div_le_one hmq]
          exact_mod_cast min_le_max
      constructor <;> linarith
  · exact ⟨by decide, by decide⟩

theorem C8_witness :
    0.8 ≤ calculateStringMatchScore ['a'] ['a', 'b'] ∧
      calculateStringMatchScore ['a'] ['a', 'b'] ≤ 1 :=
  C8_containment_interval.1 ['a'] ['a', 'b'] (by decide) (by decide) (by decide) (by decide)

theorem le_foldl_max {β : Type} (f : β → ℚ) (l : List β) (init : ℚ) :
    init ≤ l.foldl (fun acc x => max acc (f x)) init ∧
    ∀ x ∈ l, f x ≤ l.foldl (fun acc x => max acc (f x)) init := by
  induction l generalizing init with
  | nil => exact ⟨le_refl _, by simp⟩
  | cons y t ih =>
      obtain ⟨h1, h2⟩ := ih (max init (f y))
      refine ⟨le_trans (le_max_left _ _) h1, ?_⟩
      intro x hx
      rcases List.mem_cons.mp hx with rfl | hx
      · exact le_trans (le_max_right _ _) h1
      · exact h2 x hx

theorem totalScore_bounds (charName : List Char) (c : Character) :
    calculateStringMatchScore charName c.name ≤ totalScore charName c ∧
    ∀ al ∈ c.aliases, calculateStringMatchScore charName al ≤ totalScore charName c := by
  constructor
  · exact le_max_left _ _
  · intro al hal
    exact le_trans ((le_foldl_max (calculateStringMatchScore charName) c.aliases 0).2 al hal)
      (le_max_right _ _)

theorem bestFold_spec (charName : List Char) (rest : List Character) (p : Character × ℚ)
    (hp : p.2 = totalScore charName p.1) :
    (rest.foldl (bestStep charName) p).2 =
      totalScore charName (rest.foldl (bestStep charName) p).1 ∧
    (rest.foldl (bestStep charName) p = p ∨ (rest.foldl (bestStep charName) p).1 ∈ rest) ∧
    p.2 ≤ (rest.foldl (bestStep charName) p).2 ∧
    ∀ c2 ∈ rest, totalScore charName c2 ≤ (rest.foldl (bestStep charName) p).2 := by
  induction rest generalizing p with
  | nil => exact ⟨hp, Or.inl rfl, le_refl _, by simp⟩
  | cons c2 t ih =>
      rw [List.foldl_cons]
      by_cases h : totalScore charName c2 > p.2
      · have hstep : bestStep charName p c2 = (c2, totalScore charName c2) := by
          unfold bestStep; rw [if_pos h]
        rw [hstep]
        obtain ⟨h1, h2, h3, h4⟩ := ih (c2, totalScore charName c2) rfl
        refine ⟨h1, ?_, le_trans (le_of_lt h) h3, ?_⟩
        · rcases h2 with h2 | h2
          · right; rw [h2]; exact List.mem_cons_self _ _
          · right; exact List.mem_cons_of_mem _ h2
        · intro c3 hc3
          rcases List.mem_cons.mp hc3 with rfl | hc3
          · exact h3
          · exact h4 c3 hc3
      · have hstep : bestStep charName p c2 = p := by
          unfold bestStep; rw [if_neg h]
        rw [hstep]
        obtain ⟨h1, h2, h3, h4⟩ := ih p hp
        refine ⟨h1, ?_, h3, ?_⟩
        · rcases h2 with h2 | h2
          · exact Or.inl h2
          · exact Or.inr (List.mem_cons_of_mem _ h2)
        · intro c3 hc3
          rcases List.mem_cons.mp hc3 with rfl | hc3
          · exact le_trans (le_of_not_lt h) h3
          · exact h4 c3 hc3

theorem bestMatch_spec (charName : List Char) (cs : List Character) (hcs : cs ≠ []) :
    ∃ c, bestMatch charName cs = some (c, totalScore charName c) ∧ c ∈ cs ∧
      ∀ c2 ∈ cs, totalScore charName c2 ≤ totalScore charName c := by
  match cs, hcs with
  | c :: rest, _ =>
    obtain ⟨h1, h2, _, h4⟩ := bestFold_spec charName rest (c, totalScore charName c) rfl
    refine ⟨(rest.foldl (bestStep charName) (c, totalScore charName c)).1, ?_, ?_, ?_⟩
    · unfold bestMatch
      exact congrArg some (by rw [← h1])
    · rcases h2 with h2 | h2
      · rw [h2]; exact List.mem_cons_self _ _
      · exact List.mem_cons_of_mem _ h2
    · intro c2 hc2
      rcases List.mem_cons.mp hc2 with rfl | hc2
      · rw [← h1]
        exact (bestFold_spec charName rest (c2, totalScore charName c2) rfl).2.2.1
      · rw [← h1]
        exact h4 c2 hc2

/-- Claim C2. With a non-empty roster, `matchCharacters` produces one record
per mention via `matchOne`; each mention's record carries the mention, is
scored against every roster entry as the maximum of the name score and the
alias scores, attains the maximal score over the roster at some entry
`best`, and has status `matched` with candidate `best` exactly when that
best score is `≥ 0.8`, otherwise status `unmatched` with no candidate. -/
theorem C2_matcher_threshold (characters : List Character) (gptCharacters : List (List Char))
    (hc : characters ≠ []) :
    matchCharacters characters gptCharacters = gptCharacters.map (matchOne characters) ∧
    ∀ m ∈ gptCharacters, ∃ best ∈ characters,
      (matchOne characters m).name = m ∧
      (matchOne characters m).matchScore = totalScore m best ∧
      (∀ c ∈ characters, totalScore m c ≤ totalScore m best) ∧
      (∀ c ∈ characters, calculateStringMatchScore m c.name ≤ totalScore m c ∧
        ∀ al ∈ c.aliases, calculateStringMatchScore m al ≤ totalScore m c) ∧
      (0.8 ≤ totalScore m best →
        (matchOne characters m).status = .matched ∧
        (matchOne characters m).existingCharacter = some best) ∧
      (totalScore m best < 0.8 →
        (matchOne characters m).status = .unmatched ∧
        (matchOne characters m).existingCharacter = none) := by
  constructor
  · by_cases hg : gptCharacters = [] <;> simp [matchCharacters, hc, hg]
  · intro m _
    obtain ⟨best, hbm, hmem, hdom⟩ := bestMatch_spec m characters hc
    refine ⟨best, hmem, ?_⟩
    by_cases h08 : (0.8 : ℚ) ≤ totalScore m best
    · refine ⟨?_, ?_, hdom, fun c _ => totalScore_bounds m c, fun _ => ⟨?_, ?_⟩, fun hlt => ?_⟩
        <;> simp only [matchOne, hbm, if_pos h08]
      · linarith
    · refine ⟨?_, ?_, hdom, fun c _ => totalScore_bounds m c, fun hge => ?_, fun _ => ⟨?_, ?_⟩⟩
        <;> simp only [matchOne, hbm, if_neg h08]
      · exact absurd hge h08

theorem C2_witness :
    ∃ best ∈ [({ id := "1", name := ['a', 'n'], aliases := [['x']] } : Character)],
      (matchOne [({ id := "1", name := ['a', 'n'], aliases := [['x']] } : Character)]
          ['a', 'n']).name = ['a', 'n'] ∧
      (matchOne [({ id := "1", name := ['a', 'n'], aliases := [['x']] } : Character)]
          ['a', 'n']).matchScore = totalScore ['a', 'n'] best ∧
      (∀ c ∈ [({ id := "1", name := ['a', 'n'], aliases := [['x']] } : Character)],
        totalScore ['a', 'n'] c ≤ totalScore ['a', 'n'] best) ∧
      (∀ c ∈ [({ id := "1", name := ['a', 'n'], aliases := [['x']] } : Character)],
        calculateStringMatchScore ['a', 'n'] c.name ≤ totalScore ['a', 'n'] c ∧
        ∀ al ∈ c.aliases, calculateStringMatchScore ['a', 'n'] al ≤ totalScore ['a', 'n'] c) ∧
      (0.8 ≤ totalScore ['a', 'n'] best →
        (matchOne [({ id := "1", name := ['a', 'n'], aliases := [['x']] } : Character)]
            ['a', 'n']).status = .matched ∧
        (matchOne [({ id := "1", name := ['a', 'n'], aliases := [['x']] } : Character)]
            ['a', 'n']).existingCharacter = some best) ∧
      (totalScore ['a', 'n'] best < 0.8 →
        (matchOne [({ id := "1", name := ['a', 'n'], aliases := [['x']] } : Character)]
            ['a', 'n']).status = .unmatched ∧
        (matchOne [({ id := "1", name := ['a', 'n'], aliases := [['x']] } : Character)]
            ['a', 'n']).existingCharacter = none) :=
  (C2_matcher_threshold
    [({ id := "1", name := ['a', 'n'], aliases := [['x']] } : Character)]
    [['a', 'n']] (by decide)).2 ['a', 'n'] (by decide)

/-- Claim C4, counterexample. With a one-entry roster and one mention scoring
below `0.8`, marking the mention `manual` and then re-running the matcher
over the same mention list replaces the `manual` record with a freshly
computed `unmatched` one: the human decision is overwritten. -/
theorem C4_counterexample :
    ((handleManualMatch [⟨"c1", ['z', 'z', 'z', 'z'], []⟩]
        (matchCharacters [⟨"c1", ['z', 'z', 'z', 'z'], []⟩] [['a', 'b']]) 0 "c1")[0]?).map
        CharacterMatch.status = some .manual ∧
    matchCharactersState [⟨"c1", ['z', 'z', 'z', 'z'], []⟩] [['a', 'b']]
        (handleManualMatch [⟨"c1", ['z', 'z', 'z', 'z'], []⟩]
          (matchCharacters [⟨"c1", ['z', 'z', 'z', 'z'], []⟩] [['a', 'b']]) 0 "c1") ≠
      handleManualMatch [⟨"c1", ['z', 'z', 'z', 'z'], []⟩]
        (matchCharacters [⟨"c1", ['z', 'z', 'z', 'z'], []⟩] [['a', 'b']]) 0 "c1" ∧
    ((matchCharactersState [⟨"c1", ['z', 'z', 'z', 'z'], []⟩] [['a', 'b']]
        (handleManualMatch [⟨"c1", ['z', 'z', 'z', 'z'], []⟩]
          (matchCharacters [⟨"c1", ['z', 'z', 'z', 'z'], []⟩] [['a', 'b']]) 0 "c1"))[0]?).map
        CharacterMatch.status = some .unmatched := by
  refine ⟨by decide, by decide, by decide⟩

/-- Claim C4, amended. Re-running the matcher over a non-empty mention list
with a non-empty roster replaces the stored match list wholesale with
freshly computed records, every one of which has status `matched` or
`unmatched`: `manual` and `skipped` records do not survive a re-run — the
code does not preserve human reconciliation decisions across a fresh match
computation. -/
theorem C4_rerun_overwrites (characters : List Character) (gptCharacters : List (List Char))
    (st : List CharacterMatch) (hc : characters ≠ []) (hg : gptCharacters ≠ []) :
    matchCharactersState characters gptCharacters st =
      matchCharacters characters gptCharacters ∧
    ∀ e ∈ matchCharactersState characters gptCharacters st,
      e.status = .matched ∨ e.status = .unmatched := by
  have hcond : ¬(gptCharacters = [] ∨ characters = []) := by simp [hc, hg]
  constructor
  · unfold matchCharactersState matchCharacters
    rw [if_neg hcond, if_neg hcond]
  · intro e he
    unfold matchCharactersState at he
    rw [if_neg hcond] at he
    obtain ⟨m, _, rfl⟩ := List.mem_map.mp he
    cases hbm : bestMatch m characters with
    | none => simp [matchOne, hbm]
    | some p =>
        obtain ⟨c, s⟩ := p
        by_cases h08 : (0.8 : ℚ) ≤ s
        · simp [matchOne, hbm, h08]
        · simp [matchOne, hbm, h08]

theorem C4_witness :
    matchCharactersState [⟨"c1", ['z'], []⟩] [['a']] [] =
      matchCharacters [⟨"c1", ['z'], []⟩] [['a']] ∧
    ∀ e ∈ matchCharactersState [⟨"c1", ['z'], []⟩] [['a']] [],
      e.status = .matched ∨ e.status = .unmatched :=
  C4_rerun_overwrites [⟨"c1", ['z'], []⟩] [['a']] [] (by decide) (by decide)

theorem compositions_mem {k : Nat} : ∀ {n : Nat} {l : List Nat}, l ∈ compositions n k →
    l.length = k ∧ l.sum = n ∧ ∀ x ∈ l, 0 < x := by
  induction k with
  | zero =>
      intro n l h
      unfold compositions at h
      by_cases hn : n = 0
      · rw [if_pos hn] at h
        rcases List.mem_singleton.mp h with rfl
        exact ⟨rfl, by simp [hn], by simp⟩
      · rw [if_neg hn] at h
        exact absurd h (List.not_mem_nil l)
  | succ k ih =>
      intro n l h
      unfold compositions at h
      obtain ⟨i, hi, hmap⟩ := List.mem_flatMap.mp h
      obtain ⟨rest, hrest, rfl⟩ := List.mem_map.mp hmap
      obtain ⟨hlen, hsum, hpos⟩ := ih hrest
      have hin : i < n := List.mem_range.mp hi
      refine ⟨by simp [hlen], ?_, ?_⟩
      · simp only [List.sum_cons, hsum]
        omega
      · intro x hx
        rcases List.mem_cons.mp hx with rfl | hx
        · omega
        · exact hpos x hx

theorem compositions_nonempty : ∀ {k n : Nat}, 1 ≤ k → k ≤ n →
    ∃ l, l ∈ compositions n k := by
  intro k
  induction k with
  | zero => omega
  | succ k ih =>
      intro n _ hkn
      by_cases hk : k = 0
      · subst hk
        refine ⟨[n], ?_⟩
        unfold compositions
        apply List.mem_flatMap.mpr
        refine ⟨n - 1, List.mem_range.mpr (by omega), ?_⟩
        apply List.mem_map.mpr
        refine ⟨[], ?_, ?_⟩
        · have h0 : n - (n - 1 + 1) = 0 := by omega
          rw [h0]
          unfold compositions
          exact List.mem_singleton.mpr rfl
        · have h1 : n - 1 + 1 = n := by omega
          rw [h1]
      · obtain ⟨l, hl⟩ := ih (by omega) (n := n - 1) (by omega)
        refine ⟨1 :: l, ?_⟩
        unfold compositions
        apply List.mem_flatMap.mpr
        refine ⟨0, List.mem_range.mpr (by omega), List.mem_map.mpr ⟨l, ?_, rfl⟩⟩
        have h2 : n - (0 + 1) = n - 1 := by omega
        rw [h2]
        exact hl

theorem foldl_choice_mem {α : Type} (f : α → α → α)
    (hf : ∀ a b, f a b = a ∨ f a b = b) (xs : List α) :
    ∀ a, xs.foldl f a = a ∨ xs.foldl f a ∈ xs := by
  induction xs with
  | nil => intro a; exact Or.inl rfl
  | cons x t ih =>
      intro a
      rw [List.foldl_cons]
      rcases ih (f a x) with h | h
      · rcases hf a x with h2 | h2
        · exact Or.inl (by rw [h, h2])
        · exact Or.inr (by rw [h, h2]; exact List.mem_cons_self x t)
      · exact Or.inr (List.mem_cons_of_mem x h)

theorem pickBest_mem {α : Type} (better : α → α → Bool) (l : List α) (hl : l ≠ []) :
    ∃ x ∈ l, pickBest better l = some x := by
  match l, hl with
  | x :: xs, _ =>
    rcases foldl_choice_mem (fun best y => if better y best then y else best)
        (fun a b => by by_cases h : better b a <;> simp [h]) xs x with h | h
    · exact ⟨x, List.mem_cons_self _ _, congrArg some h⟩
    · exact ⟨xs.foldl (fun best y => if better y best then y else best) x,
        List.mem_cons_of_mem _ h, rfl⟩

theorem splitBySizes_length {α : Type} (sizes : List Nat) :
    ∀ scenes : List α, (splitBySizes scenes sizes).length = sizes.length := by
  induction sizes with
  | nil => intro scenes; rfl
  | cons sz rest ih => intro scenes; simp [splitBySizes, ih]

theorem splitBySizes_flatten {α : Type} (sizes : List Nat) :
    ∀ scenes : List α, sizes.sum = scenes.length →
      (splitBySizes scenes sizes).flatten = scenes := by
  induction sizes with
  | nil =>
      intro scenes h
      simp only [List.sum_nil] at h
      rw [(List.length_eq_zero.mp h.symm)]
      rfl
  | cons sz rest ih =>
      intro scenes h
      simp only [List.sum_cons] at h
      simp only [splitBySizes, List.flatten_cons]
      rw [ih (scenes.drop sz) (by simp [List.length_drop]; omega)]
      exact List.take_append_drop sz scenes

theorem splitBySizes_nonempty {α : Type} (sizes : List Nat) :
    ∀ scenes : List α, sizes.sum = scenes.length → (∀ x ∈ sizes, 0 < x) →
      ∀ s ∈ splitBySizes scenes sizes, s ≠ [] := by
  induction sizes with
  | nil => intro scenes _ _ s hs; exact absurd hs (List.not_mem_nil s)
  | cons sz rest ih =>
      intro scenes h hpos s hs
      simp only [List.sum_cons] at h
      rcases List.mem_cons.mp hs with rfl | hs
      · have h1 : 0 < sz := hpos sz (List.mem_cons_self _ _)
        intro hemp
        have h2 := congrArg List.length hemp
        simp only [List.length_take, List.length_nil] at h2
        omega
      · exact ih (scenes.drop sz) (by simp [List.length_drop]; omega)
          (fun x hx => hpos x (List.mem_cons_of_mem _ hx)) s hs

/-- Claim C3. The storyline assigner clamps the requested count `k` to the
number of scenes and returns exactly `min k n` storylines which partition
the ordered scene sequence: concatenating the storylines in order
reproduces the scene list (so every scene lies in exactly one storyline)
and no storyline is empty.  Holds for every coherence function `coh`. -/
theorem C3_storyline_partition {α : Type} (coh : List α → ℚ) (scenes : List α) (k : Nat)
    (hk : 1 ≤ k) (hs : scenes ≠ []) :
    (assignStorylines coh scenes k).length = min k scenes.length ∧
    (assignStorylines coh scenes k).flatten = scenes ∧
    ∀ s ∈ assignStorylines coh scenes k, s ≠ [] := by
  have hn : 0 < scenes.length := List.length_pos.mpr hs
  have h1 : 1 ≤ min k scenes.length := by omega
  have h2 : min k scenes.length ≤ scenes.length := Nat.min_le_right _ _
  obtain ⟨l, hlmem⟩ := compositions_nonempty h1 h2
  obtain ⟨sizes, hsmem, hpick⟩ :=
    pickBest_mem (betterSizes coh scenes scenes.length) _ (List.ne_nil_of_mem hlmem)
  obtain ⟨hlen, hsum, hpos⟩ := compositions_mem hsmem
  unfold assignStorylines
  rw [hpick]
  exact ⟨by rw [splitBySizes_length, hlen],
    splitBySizes_flatten _ _ (by rw [hsum]),
    splitBySizes_nonempty _ _ (by rw [hsum]) hpos⟩

theorem C3_witness :
    (assignStorylines (fun _ => (0 : ℚ)) [10, 20, 30] 10).length = min 10 3 ∧
    (assignStorylines (fun _ => (0 : ℚ)) [10, 20, 30] 10).flatten = [10, 20, 30] ∧
    ∀ s ∈ assignStorylines (fun _ => (0 : ℚ)) ([10, 20, 30] : List Nat) 10, s ≠ [] :=
  C3_storyline_partition (fun _ => (0 : ℚ)) [10, 20, 30] 10 (by decide) (by decide)

theorem isPrefixOf_append_self : ∀ l1 l2 : List Char, l1.isPrefixOf (l1 ++ l2) = true := by
  intro l1 l2
  induction l1 with
  | nil => simp [List.isPrefixOf]
  | cons a t ih => simp [List.isPrefixOf, ih]

theorem replaceFirst_append (pat rest : List Char) (hpat : pat ≠ []) :
    replaceFirst pat (pat ++ rest) = rest := by
  match pat, hpat with
  | p :: pt, _ =>
    have hpre : (p :: pt).isPrefixOf ((p :: pt) ++ rest) = true :=
      isPrefixOf_append_self (p :: pt) rest
    calc replaceFirst (p :: pt) ((p :: pt) ++ rest)
        = List.drop (p :: pt).length ((p :: pt) ++ rest) := by
          rw [List.cons_append]
          unfold replaceFirst
          rw [if_pos (by rw [← List.cons_append]; exact hpre)]
      _ = rest := List.drop_left _ _

theorem splitOnDash_no_dash : ∀ {l : List Char}, '-' ∉ l → splitOnDash l = [l] := by
  intro l
  induction l with
  | nil => intro _; rfl
  | cons c cs ih =>
      intro h
      have hc : ¬c = '-' := fun hh => h (hh ▸ List.mem_cons_self c cs)
      have hcs : '-' ∉ cs := fun hh => h (List.mem_cons_of_mem _ hh)
      unfold splitOnDash
      rw [if_neg hc, ih hcs]

theorem splitOnDash_append : ∀ {l1 : List Char} (l2 : List Char), '-' ∉ l1 →
    splitOnDash (l1 ++ '-' :: l2) = l1 :: splitOnDash l2 := by
  intro l1
  induction l1 with
  | nil => intro l2 _; simp [splitOnDash]
  | cons c cs ih =>
      intro l2 h
      have hc : ¬c = '-' := fun hh => h (hh ▸ List.mem_cons_self c cs)
      have hcs : '-' ∉ cs := fun hh => h (List.mem_cons_of_mem _ hh)
      rw [List.cons_append]
      show splitOnDash (c :: (cs ++ '-' :: l2)) = (c :: cs) :: splitOnDash l2
      simp only [splitOnDash]
      rw [if_neg hc, ih l2 hcs]

theorem takeWhile_eq_of_all {α : Type} (p : α → Bool) :
    ∀ (l : List α), (∀ c ∈ l, p c = true) → l.takeWhile p = l := by
  intro l
  induction l with
  | nil => intro _; rfl
  | cons a t ih =>
      intro h
      rw [List.takeWhile_cons, if_pos (h a (List.mem_cons_self a t))]
      rw [ih fun c hc => h c (List.mem_cons_of_mem a hc)]

theorem digit_not_whitespace {c : Char} (h : c.isDigit = true) :
    jsIsWhitespace c = false := by
  cases hw : jsIsWhitespace c
  · rfl
  · exfalso
    unfold jsIsWhitespace at hw
    simp only [Bool.or_eq_true, decide_eq_true_eq] at hw
    rcases hw with ((((((h1 | h1) | h1) | h1) | h1) | h1) | h1) <;> subst h1 <;>
      exact absurd h (by decide)

theorem jsParseInt_digits : ∀ {ds : List Char}, ds ≠ [] → (∀ c ∈ ds, c.isDigit = true) →
    jsParseInt ds = some (digitsVal ds) := by
  intro ds hne hd
  match ds, hne with
  | d :: t, _ =>
    have h1 : jsIsWhitespace d = false := digit_not_whitespace (hd d (List.mem_cons_self d t))
    have hdrop : List.dropWhile jsIsWhitespace (d :: t) = d :: t := by
      rw [List.dropWhile_cons, h1]
      simp
    unfold jsParseInt
    rw [hdrop, takeWhile_eq_of_all (fun c => c.isDigit) (d :: t) hd,
      if_neg (List.cons_ne_nil d t)]

/-- Claim C10. For a `GET` with a `filename` naming an existing file: a
well-formed `Range: bytes=start-end` header (decimal digit groups, the end
group possibly empty) yields a 206 response whose `Content-Range` is
`bytes start-end/size` and whose `Content-Length` is `end − start + 1`,
with `end` defaulting to `size − 1` when the second group is omitted; no
`Range` header yields a 200 response with `Content-Length` equal to the
file size; a `filename` not present in the video directory yields a 404
regardless of any `Range` header. -/
theorem C10_video_route :
    (∀ (files : List (List Char × Nat)) (fn : List Char) (size : Nat) (ds1 ds2 : List Char),
      files.lookup fn = some size → ds1 ≠ [] →
      (∀ c ∈ ds1, c.isDigit = true) → (∀ c ∈ ds2, c.isDigit = true) →
      videosGET files (some fn) (some (bytesPat ++ (ds1 ++ '-' :: ds2))) =
        { status := 206,
          contentRange := some (contentRangeValue (digitsVal ds1) (rangeEndValue size ds2) size),
          contentLength := some (rangeEndValue size ds2 - (digitsVal ds1 : Int) + 1) }) ∧
    (∀ (files : List (List Char × Nat)) (fn : List Char) (size : Nat),
      files.lookup fn = some size →
      videosGET files (some fn) none =
        { status := 200, contentRange := none, contentLength := some (size : Int) }) ∧
    (∀ (files : List (List Char × Nat)) (fn : List Char) (rh : Option (List Char)),
      files.lookup fn = none →
      videosGET files (some fn) rh =
        { status := 404, contentRange := none, contentLength := none }) := by
  have hred : ∀ (files : List (List Char × Nat)) (fn : List Char) (rh : Option (List Char)),
      videosGET files (some fn) rh = serveVideo files fn rh := fun _ _ _ => rfl
  have hg0 : ∀ (x y : List Char), (x :: [y]).getD 0 [] = x := fun _ _ => rfl
  have hg1 : ∀ (x y : List Char), (x :: [y]).getD 1 [] = y := fun _ _ => rfl
  refine ⟨?_, ?_, ?_⟩
  · intro files fn size ds1 ds2 hlook h1ne h1d h2d
    have hdash1 : '-' ∉ ds1 := fun hmem => absurd (h1d '-' hmem) (by decide)
    have hdash2 : '-' ∉ ds2 := fun hmem => absurd (h2d '-' hmem) (by decide)
    rw [hred]
    unfold serveVideo
    rw [hlook]
    dsimp only
    rw [replaceFirst_append bytesPat (ds1 ++ '-' :: ds2) (by decide),
      splitOnDash_append ds2 hdash1, splitOnDash_no_dash hdash2, hg0, hg1,
      jsParseInt_digits h1ne h1d]
    by_cases hds2 : ds2 = []
    · subst hds2
      rw [if_pos rfl]
      unfold rangeEndValue
      rw [if_pos rfl]
    · rw [if_neg hds2, jsParseInt_digits hds2 h2d, Option.map_some']
      unfold rangeEndValue
      rw [if_neg hds2]
      rfl
  · intro files fn size hlook
    rw [hred]
    unfold serveVideo
    rw [hlook]
  · intro files fn rh hlook
    rw [hred]
    unfold serveVideo
    rw [hlook]

theorem C10_witness :
    videosGET [("v.mp4".data, 1000)] (some "v.mp4".data)
        (some (bytesPat ++ ("0".data ++ '-' :: "99".data))) =
      { status := 206,
        contentRange := some (contentRangeValue (digitsVal "0".data)
          (rangeEndValue 1000 "99".data) 1000),
        contentLength := some (rangeEndValue 1000 "99".data - (digitsVal "0".data : Int) + 1) } ∧
    videosGET [("v.mp4".data, 1000)] (some "v.mp4".data) none =
      { status := 200, contentRange := none, contentLength := some (1000 : Int) } ∧
    videosGET [("v.mp4".data, 1000)] (some "x.mp4".data) none =
      { status := 404, contentRange := none, contentLength := none } :=
  ⟨C10_video_route.1 [("v.mp4".data, 1000)] "v.mp4".data 1000 "0".data "99".data
      (by decide) (by decide) (by decide) (by decide),
   C10_video_route.2.1 [("v.mp4".data, 1000)] "v.mp4".data 1000 (by decide),
   C10_video_route.2.2 [("v.mp4".data, 1000)] "x.mp4".data none (by decide)⟩

end SeriesAutomation
